import Mathlib

/-! # Ditherphile: verification of the dithering core (src/main.go)

A shallow embedding of the Go program `ditherphile`. The luminance buffer
(`image.Gray`) is modelled as a width, a height and a total sample function;
`At`/`SetGray` reproduce Go's bounds-checked accessors (`image.Gray.At`
returns the zero sample outside the rectangle, `image.Gray.SetGray` ignores
writes outside it). Machine integers are modelled as `Nat`/`Int` with an
explicit `% 256` where Go converts to `uint8`.

A central fact of the source: the constant block at src/main.go:20-26 defines
the Floyd-Steinberg weights as Go *untyped integer* constant expressions
(`1 / 16`, `3 / 16`, `5 / 16`, `7 / 16`), which are integer divisions and all
evaluate to `0`. The embedding keeps those definitions verbatim over `Nat`,
whose division truncates exactly like Go constant arithmetic.
-/

namespace Ditherphile

/-- Go `threshold` (src/main.go:21). -/
def threshold : Nat := 127

/-- Go `oneSixteenth = 1 / 16` (src/main.go:22): untyped integer constant
division, so its value is `0`. -/
def oneSixteenth : Nat := 1 / 16

/-- Go `threeSixteenths = 3 / 16` (src/main.go:23): integer division, `0`. -/
def threeSixteenths : Nat := 3 / 16

/-- Go `fiveSixteenths = 5 / 16` (src/main.go:24): integer division, `0`. -/
def fiveSixteenths : Nat := 5 / 16

/-- Go `sevenSixteenths = 7 / 16` (src/main.go:25): integer division, `0`. -/
def sevenSixteenths : Nat := 7 / 16

/-- The luminance buffer: Go `image.Gray` with `Rect = (0,0)-(width,height)`.
`pix` is a total function; only the samples at `x < width`, `y < height` are
the buffer's pixels, the rest is inert padding of the model. -/
@[ext] structure Gray where
  width : Nat
  height : Nat
  pix : Nat → Nat → Nat

/-- Go `image.Gray.At` / `GrayAt`: bounds-checked read, returning the zero
`color.Gray` for a coordinate outside the rectangle. -/
def Gray.At (g : Gray) (x y : Nat) : Nat :=
  if x < g.width ∧ y < g.height then g.pix x y else 0

/-- Go `image.Gray.SetGray`: bounds-checked write; a write outside the
rectangle is silently ignored. -/
def Gray.SetGray (g : Gray) (x y v : Nat) : Gray :=
  if x < g.width ∧ y < g.height then
    { width := g.width
      height := g.height
      pix := fun i j => if i = x ∧ j = y then v else g.pix i j }
  else g

/-- Well-formed buffer: every in-bounds sample fits in a `uint8`. Go's
`image.Gray` guarantees this by the typing of its `Pix` array. -/
def Gray.Wf (g : Gray) : Prop :=
  ∀ x < g.width, ∀ y < g.height, g.pix x y ≤ 255

instance (g : Gray) : Decidable g.Wf := by
  unfold Gray.Wf
  infer_instance

/-- Go `addErrorContrib` (src/main.go:191-195):
`img.SetGray(x, y, color.Gray{Y: uint8(int(img.At(x,y).(color.Gray).Y) + int(errVal*perc))})`.
In the program `perc` is always one of the four weight constants, each the
integer `0`; `float64` of such a constant and the product `errVal * perc` are
then exact (the product is `±0.0`), so Go's truncating `int(...)` conversion
equals the `Int` product `errVal * perc`. `uint8` of an `int` keeps the low
8 bits, i.e. the value modulo `2^8`, which `Int.emod 256` (non-negative for a
positive modulus) followed by `Int.toNat` reproduces. -/
def addErrorContrib (g : Gray) (x y : Nat) (errVal : Int) (perc : Nat) : Gray :=
  g.SetGray x y (((g.At x y : Int) + errVal * (perc : Int)) % 256).toNat

/-- Body of the doubly nested loop of `errorDiffusionDither`
(src/main.go:158-187), processing the single pixel `(x, y)`: quantize against
`threshold`, write the sentinel, then diffuse the residual to the up to four
guarded neighbours. `xLim`/`yLim` are Go's `width - 1`/`height - 1` over `int`,
kept as `Int` here. -/
def ditherStep (low high : Nat) (y : Nat) (g : Gray) (x : Nat) : Gray :=
  let pixVal := g.At x y
  let dithVal := if threshold < pixVal then high else low
  let g1 := g.SetGray x y dithVal
  let dithErr : Int := (pixVal : Int) - (dithVal : Int)
  let xLim : Int := (g.width : Int) - 1
  let yLim : Int := (g.height : Int) - 1
  let g2 :=
    if (x : Int) < xLim then
      let ga := addErrorContrib g1 (x + 1) y dithErr sevenSixteenths
      if (y : Int) < yLim then addErrorContrib ga (x + 1) (y + 1) dithErr oneSixteenth
      else ga
    else g1
  if (y : Int) < yLim then
    let gb := addErrorContrib g2 x (y + 1) dithErr fiveSixteenths
    if 0 < x then addErrorContrib gb (x - 1) (y + 1) dithErr threeSixteenths else gb
  else g2

/-- Go `errorDiffusionDither` (src/main.go:144-189): row-major traversal
(outer loop over `y`, inner over `x`) of `ditherStep`, with the sentinel pair
`low = 0`, `high = 255`, swapped when `invert` is set. -/
def errorDiffusionDither (g : Gray) (invert : Bool) : Gray :=
  let width := g.width
  let height := g.height
  let lh : Nat × Nat := if invert then (255, 0) else (0, 255)
  (List.range height).foldl
    (fun gy y => (List.range width).foldl (ditherStep lh.1 lh.2 y) gy) g

/-! ## Basic lemmas about the accessors -/

lemma SetGray_width (g : Gray) (x y v : Nat) : (g.SetGray x y v).width = g.width := by
  unfold Gray.SetGray
  split <;> rfl

lemma SetGray_height (g : Gray) (x y v : Nat) : (g.SetGray x y v).height = g.height := by
  unfold Gray.SetGray
  split <;> rfl

lemma SetGray_pix (g : Gray) (x y v i j : Nat) :
    (g.SetGray x y v).pix i j =
      if (x < g.width ∧ y < g.height) ∧ i = x ∧ j = y then v else g.pix i j := by
  unfold Gray.SetGray
  by_cases hb : x < g.width ∧ y < g.height
  · rw [if_pos hb]
    by_cases hij : i = x ∧ j = y
    · rw [if_pos ⟨hb, hij⟩]
      simp only []
      rw [if_pos hij]
    · rw [if_neg fun hc => hij hc.2]
      simp only []
      rw [if_neg hij]
  · rw [if_neg hb, if_neg fun hc => hb hc.1]

lemma Wf_SetGray (g : Gray) (x y v : Nat) (hv : v ≤ 255) (hwf : g.Wf) :
    (g.SetGray x y v).Wf := by
  intro i hi j hj
  rw [SetGray_width] at hi
  rw [SetGray_height] at hj
  rw [SetGray_pix]
  split
  · exact hv
  · exact hwf i hi j hj

lemma oneSixteenth_eq : oneSixteenth = 0 := rfl

lemma threeSixteenths_eq : threeSixteenths = 0 := rfl

lemma fiveSixteenths_eq : fiveSixteenths = 0 := rfl

lemma sevenSixteenths_eq : sevenSixteenths = 0 := rfl

lemma addErrorContrib_width (g : Gray) (x y : Nat) (e : Int) (p : Nat) :
    (addErrorContrib g x y e p).width = g.width := by
  unfold addErrorContrib
  rw [SetGray_width]

lemma addErrorContrib_height (g : Gray) (x y : Nat) (e : Int) (p : Nat) :
    (addErrorContrib g x y e p).height = g.height := by
  unfold addErrorContrib
  rw [SetGray_height]

/-- With a zero weight the diffused contribution is `int(e * 0) = 0`, and the
read-modify-write leaves the buffer unchanged (in bounds the sample re-written
is the old sample, and a write out of bounds is ignored). -/
lemma addErrorContrib_zero (g : Gray) (x y : Nat) (e : Int) (hwf : g.Wf) :
    addErrorContrib g x y e 0 = g := by
  unfold addErrorContrib
  by_cases hb : x < g.width ∧ y < g.height
  · have hpix : g.At x y = g.pix x y := by
      unfold Gray.At
      rw [if_pos hb]
    have hle : g.pix x y ≤ 255 := hwf x hb.1 y hb.2
    have hval : (((g.At x y : Int) + e * ((0 : Nat) : Int)) % 256).toNat = g.pix x y := by
      rw [hpix]
      simp only [Nat.cast_zero, mul_zero, add_zero]
      omega
    rw [hval]
    unfold Gray.SetGray
    rw [if_pos hb]
    refine Gray.ext rfl rfl ?_
    funext i j
    show (if i = x ∧ j = y then g.pix x y else g.pix i j) = g.pix i j
    by_cases hij : i = x ∧ j = y
    · rw [if_pos hij, hij.1, hij.2]
    · rw [if_neg hij]
  · unfold Gray.SetGray
    rw [if_neg hb]

/-- Processing one pixel only quantizes that pixel: every error contribution
is added with one of the four weight constants, each `0`. -/
lemma ditherStep_eq (low high y : Nat) (g : Gray) (x : Nat)
    (hl : low ≤ 255) (hh : high ≤ 255) (hwf : g.Wf) :
    ditherStep low high y g x
      = g.SetGray x y (if threshold < g.At x y then high else low) := by
  have hwfH : (g.SetGray x y high).Wf := Wf_SetGray g x y high hh hwf
  have hwfL : (g.SetGray x y low).Wf := Wf_SetGray g x y low hl hwf
  simp only [ditherStep, sevenSixteenths_eq, oneSixteenth_eq, fiveSixteenths_eq,
    threeSixteenths_eq]
  split_ifs <;>
    first
      | rfl
      | simp only [addErrorContrib_zero _ _ _ _ hwfH, addErrorContrib_zero _ _ _ _ hwfL]

lemma ditherStep_width (low high y : Nat) (g : Gray) (x : Nat) :
    (ditherStep low high y g x).width = g.width := by
  simp only [ditherStep]
  split_ifs <;> simp only [addErrorContrib_width, SetGray_width]

lemma ditherStep_height (low high y : Nat) (g : Gray) (x : Nat) :
    (ditherStep low high y g x).height = g.height := by
  simp only [ditherStep]
  split_ifs <;> simp only [addErrorContrib_height, SetGray_height]

/-! ## Characterizing the traversal

Because every diffused contribution is zero, the inner loop over one row
quantizes exactly the columns it has visited and leaves every other sample
untouched, and the full pass is the pointwise threshold of the input. -/

lemma dither_row (low high : Nat) (hl : low ≤ 255) (hh : high ≤ 255) (y : Nat)
    (g0 : Gray) (hwf : g0.Wf) (hy : y < g0.height) :
    ∀ m, m ≤ g0.width →
      ((List.range m).foldl (ditherStep low high y) g0).width = g0.width ∧
      ((List.range m).foldl (ditherStep low high y) g0).height = g0.height ∧
      ∀ i j, ((List.range m).foldl (ditherStep low high y) g0).pix i j =
        if i < m ∧ j = y then (if threshold < g0.pix i j then high else low)
        else g0.pix i j := by
  intro m
  induction m with
  | zero =>
    intro _
    refine ⟨rfl, rfl, fun i j => ?_⟩
    rw [if_neg]
    · rfl
    · intro hc
      exact Nat.not_lt_zero i hc.1
  | succ m ih =>
    intro hm
    have hm' : m ≤ g0.width := Nat.le_of_succ_le hm
    have hmw : m < g0.width := hm
    obtain ⟨hw, hhgt, hpix⟩ := ih hm'
    have hwfm : ((List.range m).foldl (ditherStep low high y) g0).Wf := by
      intro i hi j hj
      rw [hw] at hi
      rw [hhgt] at hj
      rw [hpix i j]
      split
      · split
        · exact hh
        · exact hl
      · exact hwf i hi j hj
    have hstep : (List.range (m + 1)).foldl (ditherStep low high y) g0
        = ditherStep low high y ((List.range m).foldl (ditherStep low high y) g0) m := by
      rw [List.range_succ, List.foldl_append, List.foldl_cons, List.foldl_nil]
    rw [hstep, ditherStep_eq low high y _ m hl hh hwfm]
    have hAt : ((List.range m).foldl (ditherStep low high y) g0).At m y = g0.pix m y := by
      unfold Gray.At
      rw [hw, hhgt, if_pos ⟨hmw, hy⟩, hpix m y, if_neg]
      intro hc
      exact Nat.lt_irrefl m hc.1
    refine ⟨?_, ?_, fun i j => ?_⟩
    · rw [SetGray_width, hw]
    · rw [SetGray_height, hhgt]
    · rw [SetGray_pix, hw, hhgt, hAt, hpix i j]
      by_cases h1 : i = m ∧ j = y
      · obtain ⟨h1i, h1j⟩ := h1
        subst h1i
        subst h1j
        split_ifs <;> omega
      · split_ifs <;> omega

lemma dither_all (low high : Nat) (hl : low ≤ 255) (hh : high ≤ 255)
    (g0 : Gray) (hwf : g0.Wf) :
    ∀ k, k ≤ g0.height →
      ((List.range k).foldl
          (fun gy yy => (List.range g0.width).foldl (ditherStep low high yy) gy) g0).width
        = g0.width ∧
      ((List.range k).foldl
          (fun gy yy => (List.range g0.width).foldl (ditherStep low high yy) gy) g0).height
        = g0.height ∧
      ∀ i j, ((List.range k).foldl
          (fun gy yy => (List.range g0.width).foldl (ditherStep low high yy) gy) g0).pix i j
        = if i < g0.width ∧ j < k then (if threshold < g0.pix i j then high else low)
          else g0.pix i j := by
  intro k
  induction k with
  | zero =>
    intro _
    refine ⟨rfl, rfl, fun i j => ?_⟩
    rw [if_neg]
    · rfl
    · intro hc
      exact Nat.not_lt_zero j hc.2
  | succ k ih =>
    intro hk
    have hk' : k ≤ g0.height := Nat.le_of_succ_le hk
    have hkh : k < g0.height := hk
    obtain ⟨hw, hhgt, hpix⟩ := ih hk'
    have hwfk : ((List.range k).foldl
        (fun gy yy => (List.range g0.width).foldl (ditherStep low high yy) gy) g0).Wf := by
      intro i hi j hj
      rw [hw] at hi
      rw [hhgt] at hj
      rw [hpix i j]
      split
      · split
        · exact hh
        · exact hl
      · exact hwf i hi j hj
    have hstep : (List.range (k + 1)).foldl
        (fun gy yy => (List.range g0.width).foldl (ditherStep low high yy) gy) g0
        = (List.range g0.width).foldl (ditherStep low high k)
            ((List.range k).foldl
              (fun gy yy => (List.range g0.width).foldl (ditherStep low high yy) gy) g0) := by
      rw [List.range_succ, List.foldl_append, List.foldl_cons, List.foldl_nil]
    obtain ⟨hw2, hh2, hpix2⟩ :=
      dither_row low high hl hh k _ hwfk (by rw [hhgt]; exact hkh) g0.width (by rw [hw])
    rw [hstep]
    refine ⟨by rw [hw2, hw], by rw [hh2, hhgt], fun i j => ?_⟩
    rw [hpix2 i j, hpix i j]
    split_ifs <;> omega

/-- The full pass, characterized: every in-bounds sample of the result is the
pointwise threshold of the corresponding input sample (with the sentinel pair
selected by `invert`), every out-of-bounds entry of the model is untouched,
and the extent is preserved. -/
lemma errorDiffusionDither_pix (g : Gray) (invert : Bool) (hwf : g.Wf) :
    (errorDiffusionDither g invert).width = g.width ∧
    (errorDiffusionDither g invert).height = g.height ∧
    ∀ i j, (errorDiffusionDither g invert).pix i j =
      if i < g.width ∧ j < g.height then
        (if threshold < g.pix i j then (if invert then 0 else 255)
         else (if invert then 255 else 0))
      else g.pix i j := by
  cases invert
  · have hdef : errorDiffusionDither g false
        = (List.range g.height).foldl
            (fun gy yy => (List.range g.width).foldl (ditherStep 0 255 yy) gy) g := rfl
    rw [hdef]
    exact dither_all 0 255 (by omega) (by omega) g hwf g.height (Nat.le_refl _)
  · have hdef : errorDiffusionDither g true
        = (List.range g.height).foldl
            (fun gy yy => (List.range g.width).foldl (ditherStep 255 0 yy) gy) g := rfl
    rw [hdef]
    exact dither_all 255 0 (by omega) (by omega) g hwf g.height (Nat.le_refl _)

/-! ## Write-target instrumentation

`errorDiffusionDitherT` is `errorDiffusionDither` with every write's target
coordinates appended to a log (the quantization write and each neighbour
contribution write, in program order). Its buffer component coincides with
the plain pass; the log is used to state boundary safety: no write issued by
the traversal targets a coordinate outside the rectangle. -/

def addErrorContribT (s : Gray × List (Nat × Nat)) (x y : Nat) (errVal : Int) (perc : Nat) :
    Gray × List (Nat × Nat) :=
  (addErrorContrib s.1 x y errVal perc, s.2 ++ [(x, y)])

def ditherStepT (low high : Nat) (y : Nat) (s : Gray × List (Nat × Nat)) (x : Nat) :
    Gray × List (Nat × Nat) :=
  let g := s.1
  let pixVal := g.At x y
  let dithVal := if threshold < pixVal then high else low
  let s1 : Gray × List (Nat × Nat) := (g.SetGray x y dithVal, s.2 ++ [(x, y)])
  let dithErr : Int := (pixVal : Int) - (dithVal : Int)
  let xLim : Int := (g.width : Int) - 1
  let yLim : Int := (g.height : Int) - 1
  let s2 :=
    if (x : Int) < xLim then
      let sa := addErrorContribT s1 (x + 1) y dithErr sevenSixteenths
      if (y : Int) < yLim then addErrorContribT sa (x + 1) (y + 1) dithErr oneSixteenth
      else sa
    else s1
  if (y : Int) < yLim then
    let sb := addErrorContribT s2 x (y + 1) dithErr fiveSixteenths
    if 0 < x then addErrorContribT sb (x - 1) (y + 1) dithErr threeSixteenths else sb
  else s2

def errorDiffusionDitherT (g : Gray) (invert : Bool) : Gray × List (Nat × Nat) :=
  let width := g.width
  let height := g.height
  let lh : Nat × Nat := if invert then (255, 0) else (0, 255)
  (List.range height).foldl
    (fun sy y => (List.range width).foldl (ditherStepT lh.1 lh.2 y) sy) (g, [])

lemma ditherStepT_fst (low high y : Nat) (s : Gray × List (Nat × Nat)) (x : Nat) :
    (ditherStepT low high y s x).1 = ditherStep low high y s.1 x := by
  simp only [ditherStepT, ditherStep, addErrorContribT]
  split_ifs <;> rfl

/-- Every coordinate a single step appends to the log is the quantized pixel
itself or one of the four guarded neighbours, all inside the rectangle. -/
lemma ditherStepT_log (low high y : Nat) (s : Gray × List (Nat × Nat)) (x : Nat)
    (hx : x < s.1.width) (hy : y < s.1.height) :
    ∀ p ∈ (ditherStepT low high y s x).2,
      p ∈ s.2 ∨ (p.1 < s.1.width ∧ p.2 < s.1.height) := by
  intro p hp
  simp only [ditherStepT, addErrorContribT] at hp
  split_ifs at hp with h1 h2 h3 h4 h5 h6
  all_goals
    repeat'
      first
        | exact Or.inl hp
        | (rcases List.mem_append.mp hp with hp | hp)
        | (rw [List.mem_singleton] at hp
           subst hp
           exact Or.inr ⟨by omega, by omega⟩)

lemma foldl_ditherStep_width (low high y : Nat) :
    ∀ (xs : List Nat) (g : Gray),
      (xs.foldl (ditherStep low high y) g).width = g.width := by
  intro xs
  induction xs with
  | nil => intro g; rfl
  | cons a as ih =>
    intro g
    rw [List.foldl_cons, ih (ditherStep low high y g a), ditherStep_width]

lemma foldl_ditherStep_height (low high y : Nat) :
    ∀ (xs : List Nat) (g : Gray),
      (xs.foldl (ditherStep low high y) g).height = g.height := by
  intro xs
  induction xs with
  | nil => intro g; rfl
  | cons a as ih =>
    intro g
    rw [List.foldl_cons, ih (ditherStep low high y g a), ditherStep_height]

lemma foldT_fst (low high y : Nat) :
    ∀ (xs : List Nat) (g : Gray) (l : List (Nat × Nat)),
      (xs.foldl (ditherStepT low high y) (g, l)).1 = xs.foldl (ditherStep low high y) g := by
  intro xs
  induction xs with
  | nil => intro g l; rfl
  | cons a as ih =>
    intro g l
    simp only [List.foldl_cons]
    rcases hEq : ditherStepT low high y (g, l) a with ⟨g2, l2⟩
    have h2 : g2 = ditherStep low high y g a := by
      have h := ditherStepT_fst low high y (g, l) a
      rw [hEq] at h
      exact h
    rw [← h2]
    exact ih g2 l2

lemma rowT_log (low high y : Nat) :
    ∀ (m : Nat) (g : Gray) (l : List (Nat × Nat)), y < g.height → m ≤ g.width →
      ∀ p ∈ ((List.range m).foldl (ditherStepT low high y) (g, l)).2,
        p ∈ l ∨ (p.1 < g.width ∧ p.2 < g.height) := by
  intro m
  induction m with
  | zero =>
    intro g l _ _ p hp
    exact Or.inl hp
  | succ m ih =>
    intro g l hy hm p hp
    have hstep : (List.range (m + 1)).foldl (ditherStepT low high y) (g, l)
        = ditherStepT low high y ((List.range m).foldl (ditherStepT low high y) (g, l)) m := by
      rw [List.range_succ, List.foldl_append, List.foldl_cons, List.foldl_nil]
    rw [hstep] at hp
    have hfst : ((List.range m).foldl (ditherStepT low high y) (g, l)).1
        = (List.range m).foldl (ditherStep low high y) g := foldT_fst low high y _ g l
    have hwid : ((List.range m).foldl (ditherStepT low high y) (g, l)).1.width = g.width := by
      rw [hfst, foldl_ditherStep_width]
    have hhei : ((List.range m).foldl (ditherStepT low high y) (g, l)).1.height = g.height := by
      rw [hfst, foldl_ditherStep_height]
    have hlog := ditherStepT_log low high y _ m (by rw [hwid]; omega) (by rw [hhei]; exact hy) p hp
    rcases hlog with h | h
    · exact ih g l hy (by omega) p h
    · rw [hwid, hhei] at h
      exact Or.inr h

lemma outerT_fst (low high W : Nat) :
    ∀ (ys : List Nat) (g : Gray) (l : List (Nat × Nat)),
      (ys.foldl (fun sy yy => (List.range W).foldl (ditherStepT low high yy) sy) (g, l)).1
        = ys.foldl (fun gy yy => (List.range W).foldl (ditherStep low high yy) gy) g := by
  intro ys
  induction ys with
  | nil => intro g l; rfl
  | cons a as ih =>
    intro g l
    simp only [List.foldl_cons]
    rcases hEq : (List.range W).foldl (ditherStepT low high a) (g, l) with ⟨g2, l2⟩
    have h2 : g2 = (List.range W).foldl (ditherStep low high a) g := by
      have h := foldT_fst low high a (List.range W) g l
      rw [hEq] at h
      exact h
    rw [← h2]
    exact ih g2 l2

lemma outer_width (low high W : Nat) :
    ∀ (ys : List Nat) (g : Gray),
      (ys.foldl (fun gy yy => (List.range W).foldl (ditherStep low high yy) gy) g).width
        = g.width := by
  intro ys
  induction ys with
  | nil => intro g; rfl
  | cons a as ih =>
    intro g
    rw [List.foldl_cons, ih _, foldl_ditherStep_width]

lemma outer_height (low high W : Nat) :
    ∀ (ys : List Nat) (g : Gray),
      (ys.foldl (fun gy yy => (List.range W).foldl (ditherStep low high yy) gy) g).height
        = g.height := by
  intro ys
  induction ys with
  | nil => intro g; rfl
  | cons a as ih =>
    intro g
    rw [List.foldl_cons, ih _, foldl_ditherStep_height]

lemma ditherT_log (low high : Nat) (g : Gray) :
    ∀ (n : Nat) (l : List (Nat × Nat)), n ≤ g.height →
      ∀ p ∈ ((List.range n).foldl
          (fun sy yy => (List.range g.width).foldl (ditherStepT low high yy) sy) (g, l)).2,
        p ∈ l ∨ (p.1 < g.width ∧ p.2 < g.height) := by
  intro n
  induction n with
  | zero =>
    intro l _ p hp
    exact Or.inl hp
  | succ n ih =>
    intro l hn p hp
    have hstep : (List.range (n + 1)).foldl
        (fun sy yy => (List.range g.width).foldl (ditherStepT low high yy) sy) (g, l)
        = (List.range g.width).foldl (ditherStepT low high n)
            ((List.range n).foldl
              (fun sy yy => (List.range g.width).foldl (ditherStepT low high yy) sy) (g, l)) := by
      rw [List.range_succ, List.foldl_append, List.foldl_cons, List.foldl_nil]
    rw [hstep] at hp
    rcases hEq : (List.range n).foldl
        (fun sy yy => (List.range g.width).foldl (ditherStepT low high yy) sy) (g, l)
      with ⟨gn, ln⟩
    have hfst : gn = (List.range n).foldl
        (fun gy yy => (List.range g.width).foldl (ditherStep low high yy) gy) g := by
      have h := outerT_fst low high g.width (List.range n) g l
      rw [hEq] at h
      exact h
    have hwid : gn.width = g.width := by rw [hfst, outer_width]
    have hhei : gn.height = g.height := by rw [hfst, outer_height]
    rw [hEq] at hp
    have hrow := rowT_log low high n g.width gn ln
      (by rw [hhei]; omega) (by rw [hwid]) p hp
    rcases hrow with h | h
    · have h2 : p ∈ ((List.range n).foldl
          (fun sy yy => (List.range g.width).foldl (ditherStepT low high yy) sy) (g, l)).2 := by
        rw [hEq]
        exact h
      exact ih l (by omega) p h2
    · rw [hwid, hhei] at h
      exact Or.inr h

/-- Every write target the instrumented pass logs is inside the rectangle. -/
lemma errorDiffusionDitherT_log (g : Gray) (invert : Bool) :
    ∀ p ∈ (errorDiffusionDitherT g invert).2, p.1 < g.width ∧ p.2 < g.height := by
  intro p hp
  cases invert
  · have hdef : errorDiffusionDitherT g false
        = (List.range g.height).foldl
            (fun sy yy => (List.range g.width).foldl (ditherStepT 0 255 yy) sy) (g, []) := rfl
    rw [hdef] at hp
    rcases ditherT_log 0 255 g g.height [] (Nat.le_refl _) p hp with h | h
    · exact absurd h (List.not_mem_nil p)
    · exact h
  · have hdef : errorDiffusionDitherT g true
        = (List.range g.height).foldl
            (fun sy yy => (List.range g.width).foldl (ditherStepT 255 0 yy) sy) (g, []) := rfl
    rw [hdef] at hp
    rcases ditherT_log 255 0 g g.height [] (Nat.le_refl _) p hp with h | h
    · exact absurd h (List.not_mem_nil p)
    · exact h

/-- The instrumented pass computes the same buffer as the plain pass. -/
lemma errorDiffusionDitherT_fst (g : Gray) (invert : Bool) :
    (errorDiffusionDitherT g invert).1 = errorDiffusionDither g invert := by
  cases invert
  · exact outerT_fst 0 255 g.width (List.range g.height) g []
  · exact outerT_fst 255 0 g.width (List.range g.height) g []

/-! ## Grayscale conversion (src/main.go:131-142) -/

/-- A source pixel: an opaque 8-bit RGB colour. Go's `Color.RGBA()` on such a
pixel yields alpha-premultiplied 16-bit components `c | c << 8 = c * 0x101`. -/
structure RGB where
  r : Nat
  g : Nat
  b : Nat
  deriving DecidableEq

/-- The decoded source image, read-only to the core. Bounds `Min = (0, 0)`
are assumed, as the decoders produce. -/
structure SourceImage where
  width : Nat
  height : Nat
  pix : Nat → Nat → RGB

/-- Go `img.At(x, y)` on the modelled source: bounds-checked, zero colour
outside the rectangle. -/
def SourceImage.At (img : SourceImage) (x y : Nat) : RGB :=
  if x < img.width ∧ y < img.height then img.pix x y else ⟨0, 0, 0⟩

/-- The 16-bit component Go's `Color.RGBA()` returns for an opaque 8-bit
channel value `c`: `c | c << 8`, i.e. `c * 257`. -/
def rgba16 (c : Nat) : Nat := c * 257

/-- Go `color.grayModel` (image/color/color.go), reached through
`result.ColorModel().Convert(...)` in `imageToGrayscale`:
`y := (19595*r + 38470*g + 7471*b + 1<<15) >> 24` over the 16-bit components,
stored as `uint8(y)` (the `% 256` mirrors that conversion; `y` already fits). -/
def grayModelConvert (c : RGB) : Nat :=
  ((19595 * rgba16 c.r + 38470 * rgba16 c.g + 7471 * rgba16 c.b + 32768) >>> 24) % 256

/-- Body of the inner loop of `imageToGrayscale` (src/main.go:136-138) for
column `x` and row `y`: `result.Set(x, y, result.ColorModel().Convert(img.At(x, y)))`.
The state threads the untouched source with the result buffer; `Gray.Set` on
an already-gray colour stores its `Y` unchanged. -/
def grayRowStep (x : Nat) (st2 : SourceImage × Gray) (y : Nat) : SourceImage × Gray :=
  (st2.1, st2.2.SetGray x y (grayModelConvert (st2.1.At x y)))

/-- Go `imageToGrayscale` (src/main.go:131-142): allocate `image.NewGray`
(zero-filled) with the source's bounds, then loop x over [0, Max.X) and y
over [0, Max.Y) setting each converted sample. Returns the threaded source
(which no operation of the loop writes) together with the new buffer. -/
def imageToGrayscale (img : SourceImage) : SourceImage × Gray :=
  let result : Gray := { width := img.width, height := img.height, pix := fun _ _ => 0 }
  (List.range img.width).foldl
    (fun st x => (List.range img.height).foldl (grayRowStep x) st) (img, result)

lemma grayRow_fst (x : Nat) :
    ∀ (ys : List Nat) (st : SourceImage × Gray), (ys.foldl (grayRowStep x) st).1 = st.1 := by
  intro ys
  induction ys with
  | nil => intro st; rfl
  | cons a as ih =>
    intro st
    rw [List.foldl_cons, ih (grayRowStep x st a)]
    rfl

lemma grayRowStep_eq (x : Nat) (st : SourceImage × Gray) (y : Nat) :
    grayRowStep x st y = (st.1, st.2.SetGray x y (grayModelConvert (st.1.At x y))) := rfl

lemma grayRow_pix (x : Nat) :
    ∀ (n : Nat) (st : SourceImage × Gray),
      ((List.range n).foldl (grayRowStep x) st).2.width = st.2.width ∧
      ((List.range n).foldl (grayRowStep x) st).2.height = st.2.height ∧
      ∀ i j, ((List.range n).foldl (grayRowStep x) st).2.pix i j =
        if i = x ∧ j < n ∧ x < st.2.width ∧ j < st.2.height
        then grayModelConvert (st.1.At x j)
        else st.2.pix i j := by
  intro n
  induction n with
  | zero =>
    intro st
    refine ⟨rfl, rfl, fun i j => ?_⟩
    rw [if_neg]
    · rfl
    · intro hc
      exact Nat.not_lt_zero j hc.2.1
  | succ n ih =>
    intro st
    obtain ⟨hw, hh, hpix⟩ := ih st
    have hstep : (List.range (n + 1)).foldl (grayRowStep x) st
        = grayRowStep x ((List.range n).foldl (grayRowStep x) st) n := by
      rw [List.range_succ, List.foldl_append, List.foldl_cons, List.foldl_nil]
    have hfst : ((List.range n).foldl (grayRowStep x) st).1 = st.1 :=
      grayRow_fst x (List.range n) st
    rw [hstep, grayRowStep_eq]
    dsimp only
    refine ⟨by rw [SetGray_width, hw], by rw [SetGray_height, hh], fun i j => ?_⟩
    rw [SetGray_pix, hw, hh, hfst, hpix i j]
    by_cases hj : j = n
    · subst hj
      by_cases hi : i = x
      · subst hi
        split_ifs <;> omega
      · split_ifs <;> omega
    · split_ifs <;> omega

lemma grayAll_pix (img : SourceImage) :
    ∀ (m : Nat) (st : SourceImage × Gray), st.1 = img →
      ((List.range m).foldl
          (fun st x => (List.range img.height).foldl (grayRowStep x) st) st).1 = img ∧
      ((List.range m).foldl
          (fun st x => (List.range img.height).foldl (grayRowStep x) st) st).2.width
        = st.2.width ∧
      ((List.range m).foldl
          (fun st x => (List.range img.height).foldl (grayRowStep x) st) st).2.height
        = st.2.height ∧
      ∀ i j, ((List.range m).foldl
          (fun st x => (List.range img.height).foldl (grayRowStep x) st) st).2.pix i j =
        if i < m ∧ j < img.height ∧ i < st.2.width ∧ j < st.2.height
        then grayModelConvert (img.At i j)
        else st.2.pix i j := by
  intro m
  induction m with
  | zero =>
    intro st hst
    refine ⟨hst, rfl, rfl, fun i j => ?_⟩
    rw [if_neg]
    · rfl
    · intro hc
      exact Nat.not_lt_zero i hc.1
  | succ m ih =>
    intro st hst
    obtain ⟨hfst, hw, hh, hpix⟩ := ih st hst
    have hstep : (List.range (m + 1)).foldl
        (fun st x => (List.range img.height).foldl (grayRowStep x) st) st
        = (List.range img.height).foldl (grayRowStep m)
            ((List.range m).foldl
              (fun st x => (List.range img.height).foldl (grayRowStep x) st) st) := by
      rw [List.range_succ, List.foldl_append, List.foldl_cons, List.foldl_nil]
    obtain ⟨hw2, hh2, hpix2⟩ := grayRow_pix m img.height
      ((List.range m).foldl (fun st x => (List.range img.height).foldl (grayRowStep x) st) st)
    have hfst2 : ((List.range img.height).foldl (grayRowStep m)
        ((List.range m).foldl
          (fun st x => (List.range img.height).foldl (grayRowStep x) st) st)).1 = img := by
      rw [grayRow_fst, hfst]
    rw [hstep]
    refine ⟨hfst2, by rw [hw2, hw], by rw [hh2, hh], fun i j => ?_⟩
    rw [hpix2 i j, hw, hh, hfst, hpix i j]
    by_cases hi : i = m
    · subst hi
      split_ifs <;> omega
    · split_ifs <;> omega

/-- Full characterization of the converter: the source comes back untouched,
the result has the source's extent, and every in-bounds sample is the
standard-library gray conversion of the corresponding source pixel. -/
lemma imageToGrayscale_pix (img : SourceImage) :
    (imageToGrayscale img).1 = img ∧
    (imageToGrayscale img).2.width = img.width ∧
    (imageToGrayscale img).2.height = img.height ∧
    ∀ i j, (imageToGrayscale img).2.pix i j =
      if i < img.width ∧ j < img.height then grayModelConvert (img.At i j) else 0 := by
  have hdef : imageToGrayscale img
      = (List.range img.width).foldl
          (fun st x => (List.range img.height).foldl (grayRowStep x) st)
          (img, { width := img.width, height := img.height, pix := fun _ _ => 0 }) := rfl
  obtain ⟨hfst, hw, hh, hpix⟩ := grayAll_pix img img.width
    (img, { width := img.width, height := img.height, pix := fun _ _ => 0 }) rfl
  rw [hdef]
  refine ⟨hfst, hw, hh, fun i j => ?_⟩
  rw [hpix i j]
  dsimp only
  split_ifs <;> omega

/-! ## The specification-side reference definitions -/

/-- The ITU-R 601 luma the spec names, rounded to the nearest integer:
`round(0.299 R + 0.587 G + 0.114 B)`, computed exactly over `ℚ`. This is the
specification's reference formula, not code of the repository. -/
def ituY601 (r g b : Nat) : Int :=
  round (((299 * r + 587 * g + 114 * b : Nat) : ℚ) / 1000)

/-- The operation claim C5 applies to a dithered buffer: swap the two
sentinel samples 0 and 255, leaving any other value alone. -/
def swapSentinels (v : Nat) : Nat := if v = 0 then 255 else if v = 255 then 0 else v

/-- Modelled from the claim (the specification side of refinement claim C10):
the pointwise threshold map. Each in-bounds pixel becomes `high` exactly when
its own initial value exceeds 127 and `low` otherwise, independent of every
other pixel; entries outside the rectangle (an artifact of the total-function
model) are carried through unchanged, as the traversal never writes there. -/
def thresholdMapSpec (g : Gray) (invert : Bool) : Gray :=
  { width := g.width
    height := g.height
    pix := fun x y =>
      if x < g.width ∧ y < g.height then
        (if 127 < g.pix x y then (if invert then 0 else 255) else (if invert then 255 else 0))
      else g.pix x y }

/-! ## The boundary (src/main.go:46-68) -/

/-- A Go runtime panic aborting the process. The Go runtime terminates a
panicking process with exit status 2 (non-zero). -/
inductive GoPanic where
  | nilInterfaceDeref

/-- Outcome of a run of `main` past flag parsing: aborted by a runtime
panic, or the dithered buffer reached `saveImage`. -/
inductive MainOutcome where
  | crashed (p : GoPanic)
  | saved (result : Gray)

/-- The process exit status an outcome yields: a runtime panic aborts the
process with the Go runtime's status 2; a run that reached `saveImage` exits
0 (save errors are outside the modelled path). -/
def MainOutcome.exitStatus : MainOutcome → Nat
  | MainOutcome.crashed _ => 2
  | MainOutcome.saved _ => 0

/-- Dereference of an `image.Image` interface value: a method call through
the interface panics when the interface is nil, and otherwise reaches the
concrete image. -/
def derefImage (img : Option SourceImage) : Except GoPanic SourceImage :=
  match img with
  | none => Except.error GoPanic.nilInterfaceDeref
  | some i => Except.ok i

/-- Go `imageToGrayscale` (src/main.go:131-142) as `main` calls it, on a
possibly-nil interface argument: its first statement is
`bounds := img.Bounds()` (line 132), a method call through the interface, so
the receiver is dereferenced before any other work — a nil receiver panics
there, and on a concrete image the total conversion runs. -/
def imageToGrayscaleGo (inImg : Option SourceImage) : Except GoPanic (SourceImage × Gray) :=
  (derefImage inImg).map imageToGrayscale

/-- Go `main` from the `loadImage` call on (src/main.go:55-68), the decode
result abstracted as `Option SourceImage` (`none`: `loadImage` returned an
error and `inImg` is the nil interface). The statement sequence is mirrored:
the `if err != nil` block prints the error to stderr (line 58) and — unlike
the config path (line 52) and the save path (line 66) — does not exit, so
control continues into `imageToGrayscale(inImg)`; a panic raised there
aborts the run before `errorDiffusionDither` and `saveImage` execute, and
otherwise the dithered buffer is handed to `saveImage`. The Bool component
records whether the decode error was printed to stderr. -/
def mainFromLoad (load : Option SourceImage) (invert : Bool) : Bool × MainOutcome :=
  let errPrinted := load.isNone
  match imageToGrayscaleGo load with
  | Except.error p => (errPrinted, MainOutcome.crashed p)
  | Except.ok pair => (errPrinted, MainOutcome.saved (errorDiffusionDither pair.2 invert))

/-! ## Concrete buffers used by the claim theorems -/

/-- The spec's golden scenario buffer `[[200, 50], [50, 200]]` (2 wide, 2 high):
`pix x y` is row `y`, column `x`. -/
def c2buf : Gray := ⟨2, 2, fun x y => if x = y then 200 else 50⟩

/-- A 2x1 buffer `[200, 100]`: quantizing (0,0) to 255 leaves residual -55. -/
def c1buf : Gray := ⟨2, 1, fun x _ => if x = 0 then 200 else 100⟩

/-- A 2x1 buffer `[127, 250]`: quantizing (0,0) to 0 leaves residual +127; a
true 7/16 contribution would send sample (1,0) to 250 + 55 = 305 ∉ [0,255]. -/
def c3buf : Gray := ⟨2, 1, fun x _ => if x = 0 then 127 else 250⟩

/-- The spec's synthetic boundary-safety image: 3x3, uniform value 200. -/
def gU3 : Gray := ⟨3, 3, fun _ _ => 200⟩

/-- A 1x1 pure-red source image. -/
def redPixel1x1 : SourceImage := ⟨1, 1, fun _ _ => ⟨255, 0, 0⟩⟩

/-- A 0-width (degenerate) source image of height 5. -/
def emptySrc0x5 : SourceImage := ⟨0, 5, fun _ _ => ⟨7, 7, 7⟩⟩

/-- A 0-height (degenerate) luminance buffer of width 3. -/
def empty3x0 : Gray := ⟨3, 0, fun _ _ => 9⟩

lemma ituY601_red : ituY601 255 0 0 = 76 := by
  unfold ituY601
  rw [round_eq, Int.floor_eq_iff]
  constructor <;> norm_num

lemma ituY601_green : ituY601 0 255 0 = 150 := by
  unfold ituY601
  rw [round_eq, Int.floor_eq_iff]
  constructor <;> norm_num

lemma ituY601_blue : ituY601 0 0 255 = 29 := by
  unfold ituY601
  rw [round_eq, Int.floor_eq_iff]
  constructor <;> norm_num

/-! ## The claims -/

/-- C1: refuted by the code as written. The four kernel constants
(src/main.go:22-25) are Go untyped integer divisions, all zero, so
`addErrorContrib` adds `int(e * 0) = 0` to every neighbour. At the failing
input, buffer `[200, 100]`, quantizing (0,0) leaves `e = -55`; the claim says
neighbour (1,0) receives `int(-55 * 7/16) = -24`, leaving 76, but the code
leaves its sample at 100. -/
theorem C1_weights_zero_no_diffusion :
    sevenSixteenths = 0 ∧ threeSixteenths = 0 ∧ fiveSixteenths = 0 ∧ oneSixteenth = 0 ∧
    (addErrorContrib c1buf 1 0 (-55) sevenSixteenths).pix 1 0 = 100 ∧
    (addErrorContrib c1buf 1 0 (-55) sevenSixteenths).pix 1 0 ≠ 76 := by
  refine ⟨rfl, rfl, rfl, rfl, ?_, ?_⟩ <;> decide

/-- C2: on the spec's scenario buffer `[[200, 50], [50, 200]]` with
invert = false, the code does quantize (0,0) to 255 (200 > 127) as the claim
says, but after that first pixel is processed the sample at (1,0) is still
50, not the claimed 26: the diffused contribution is `int(-55 * 0) = 0`. -/
theorem C2_scenario_neighbor_unchanged :
    (ditherStep 0 255 0 c2buf 0).pix 0 0 = 255 ∧
    (ditherStep 0 255 0 c2buf 0).pix 1 0 = 50 ∧
    (ditherStep 0 255 0 c2buf 0).pix 1 0 ≠ 26 := by
  refine ⟨?_, ?_, ?_⟩ <;> decide

/-- C3: on the buffer `[127, 250]` the intended Floyd-Steinberg diffusion of
the residual +127 at (0,0) would leave `250 + int(127 * 7/16) = 305` at
(1,0), outside [0,255]; the code instead adds 0, so the not-yet-visited
sample keeps exactly its initial value 250 and no intermediate value outside
[0,255] ever exists (nor could the `uint8` store hold one: it wraps
modulo 256 rather than preserving an out-of-range sum). -/
theorem C3_no_out_of_range_intermediate :
    (ditherStep 0 255 0 c3buf 0).pix 0 0 = 0 ∧
    (ditherStep 0 255 0 c3buf 0).pix 1 0 = 250 ∧
    (ditherStep 0 255 0 c3buf 0).pix 1 0 ≠ 305 := by
  refine ⟨?_, ?_, ?_⟩ <;> decide

/-- C4: after the pass, every in-bounds sample is one of the two sentinels,
`(low, high) = (0, 255)` normally and `(255, 0)` when inverted. -/
theorem C4_post_dither_sentinels (g : Gray) (invert : Bool) (x y : Nat)
    (hwf : g.Wf) (hx : x < g.width) (hy : y < g.height) :
    (errorDiffusionDither g invert).pix x y = (if invert then 255 else 0) ∨
    (errorDiffusionDither g invert).pix x y = (if invert then 0 else 255) := by
  obtain ⟨-, -, hpix⟩ := errorDiffusionDither_pix g invert hwf
  rw [hpix x y, if_pos ⟨hx, hy⟩]
  split_ifs <;> simp

theorem C4_post_dither_sentinels_witness :
    gU3.Wf ∧ 2 < gU3.width ∧ 2 < gU3.height ∧
    ((errorDiffusionDither gU3 false).pix 2 2 = (if false then 255 else 0) ∨
     (errorDiffusionDither gU3 false).pix 2 2 = (if false then 0 else 255)) :=
  ⟨by decide, by decide, by decide,
   C4_post_dither_sentinels gU3 false 2 2 (by decide) (by decide) (by decide)⟩

/-- C5: dithering with invert = true and then swapping 0 and 255 in every
sample reproduces the invert = false result exactly, pixel for pixel. -/
theorem C5_invert_swap (g : Gray) (x y : Nat)
    (hwf : g.Wf) (hx : x < g.width) (hy : y < g.height) :
    swapSentinels ((errorDiffusionDither g true).pix x y)
      = (errorDiffusionDither g false).pix x y := by
  obtain ⟨-, -, hpixT⟩ := errorDiffusionDither_pix g true hwf
  obtain ⟨-, -, hpixF⟩ := errorDiffusionDither_pix g false hwf
  have hb : x < g.width ∧ y < g.height := ⟨hx, hy⟩
  rw [hpixT x y, hpixF x y, if_pos hb, if_pos hb]
  by_cases h : threshold < g.pix x y
  · rw [if_pos h, if_pos h]
    rfl
  · rw [if_neg h, if_neg h]
    rfl

theorem C5_invert_swap_witness :
    c2buf.Wf ∧ 0 < c2buf.width ∧ 0 < c2buf.height ∧
    swapSentinels ((errorDiffusionDither c2buf true).pix 0 0)
      = (errorDiffusionDither c2buf false).pix 0 0 :=
  ⟨by decide, by decide, by decide,
   C5_invert_swap c2buf 0 0 (by decide) (by decide) (by decide)⟩

/-- C6: when decode fails (`loadImage` returns an error, `inImg = nil`), the
run reports the failure to stderr, terminates with a non-zero exit status,
and no dithered buffer reaches the output stage. The non-zero termination is
by the nil-interface panic the dereference inside `imageToGrayscale` raises
(the decode-error branch itself prints but does not exit), which aborts the
run before `errorDiffusionDither` and `saveImage`. -/
theorem C6_decode_failure_reported_nonzero_no_output (invert : Bool) (result : Gray) :
    (mainFromLoad none invert).1 = true ∧
    (mainFromLoad none invert).2.exitStatus ≠ 0 ∧
    (mainFromLoad none invert).2 ≠ MainOutcome.saved result := by
  have h : mainFromLoad none invert
      = (true, MainOutcome.crashed GoPanic.nilInterfaceDeref) := rfl
  rw [h]
  refine ⟨rfl, by decide, ?_⟩
  intro hc
  exact MainOutcome.noConfusion hc

/-- C7: with W ≥ 1 and H ≥ 1, every write the traversal issues (quantization
and each guarded neighbour contribution, as logged by the instrumented pass)
targets a coordinate inside [0,W) x [0,H); the instrumented pass computes the
same buffer as the plain pass, and the completed traversal leaves only the
two sentinel values. -/
theorem C7_boundary_safety (g : Gray) (invert : Bool) (p : Nat × Nat) (x y : Nat)
    (hwf : g.Wf) (_hW : 1 ≤ g.width) (_hH : 1 ≤ g.height)
    (hp : p ∈ (errorDiffusionDitherT g invert).2)
    (hx : x < g.width) (hy : y < g.height) :
    (p.1 < g.width ∧ p.2 < g.height) ∧
    (errorDiffusionDitherT g invert).1 = errorDiffusionDither g invert ∧
    ((errorDiffusionDither g invert).pix x y = (if invert then 255 else 0) ∨
     (errorDiffusionDither g invert).pix x y = (if invert then 0 else 255)) := by
  refine ⟨errorDiffusionDitherT_log g invert p hp, errorDiffusionDitherT_fst g invert, ?_⟩
  obtain ⟨-, -, hpix⟩ := errorDiffusionDither_pix g invert hwf
  rw [hpix x y, if_pos ⟨hx, hy⟩]
  split_ifs <;> simp

theorem C7_boundary_safety_witness :
    gU3.Wf ∧ 1 ≤ gU3.width ∧ 1 ≤ gU3.height ∧
    ((0, 0) : Nat × Nat) ∈ (errorDiffusionDitherT gU3 true).2 ∧
    1 < gU3.width ∧ 1 < gU3.height ∧
    ((((0, 0) : Nat × Nat).1 < gU3.width ∧ ((0, 0) : Nat × Nat).2 < gU3.height) ∧
     (errorDiffusionDitherT gU3 true).1 = errorDiffusionDither gU3 true ∧
     ((errorDiffusionDither gU3 true).pix 1 1 = (if true then 255 else 0) ∨
      (errorDiffusionDither gU3 true).pix 1 1 = (if true then 0 else 255))) :=
  ⟨by decide, by decide, by decide, by decide, by decide, by decide,
   C7_boundary_safety gU3 true (0, 0) 1 1 (by decide) (by decide) (by decide)
     (by decide) (by decide) (by decide)⟩

/-- C8: for a source pixel that is pure red, pure green or pure blue, the
converted luminance sample is within 1 of the ITU-R 601 weighted sum rounded
to the nearest integer, and the converter hands the source back untouched. -/
theorem C8_grayscale_conversion (src : SourceImage) (x y : Nat)
    (hx : x < src.width) (hy : y < src.height)
    (hc : src.pix x y = ⟨255, 0, 0⟩ ∨ src.pix x y = ⟨0, 255, 0⟩ ∨ src.pix x y = ⟨0, 0, 255⟩) :
    (imageToGrayscale src).1 = src ∧
    (((imageToGrayscale src).2.pix x y : Int)
        - ituY601 (src.pix x y).r (src.pix x y).g (src.pix x y).b).natAbs ≤ 1 := by
  obtain ⟨hfst, -, -, hpix⟩ := imageToGrayscale_pix src
  refine ⟨hfst, ?_⟩
  rw [hpix x y, if_pos ⟨hx, hy⟩]
  have hAt : src.At x y = src.pix x y := by
    unfold SourceImage.At
    rw [if_pos ⟨hx, hy⟩]
  rw [hAt]
  rcases hc with h | h | h <;> rw [h] <;> dsimp only
  · rw [show grayModelConvert ⟨255, 0, 0⟩ = 76 from by decide, ituY601_red]
    decide
  · rw [show grayModelConvert ⟨0, 255, 0⟩ = 150 from by decide, ituY601_green]
    decide
  · rw [show grayModelConvert ⟨0, 0, 255⟩ = 29 from by decide, ituY601_blue]
    decide

theorem C8_grayscale_conversion_witness :
    0 < redPixel1x1.width ∧ 0 < redPixel1x1.height ∧
    (redPixel1x1.pix 0 0 = ⟨255, 0, 0⟩ ∨ redPixel1x1.pix 0 0 = ⟨0, 255, 0⟩ ∨
      redPixel1x1.pix 0 0 = ⟨0, 0, 255⟩) ∧
    ((imageToGrayscale redPixel1x1).1 = redPixel1x1 ∧
     (((imageToGrayscale redPixel1x1).2.pix 0 0 : Int)
        - ituY601 (redPixel1x1.pix 0 0).r (redPixel1x1.pix 0 0).g
            (redPixel1x1.pix 0 0).b).natAbs ≤ 1) :=
  ⟨by decide, by decide, Or.inl rfl,
   C8_grayscale_conversion redPixel1x1 0 0 (by decide) (by decide) (Or.inl rfl)⟩

/-- C9: both core operations are total over non-negative extents; on a
0-width or 0-height source the converter returns the equally-empty zero
buffer of the same extent, and the pass leaves an empty buffer unchanged. -/
theorem C9_degenerate_extents (src : SourceImage) (g : Gray) (invert : Bool)
    (hsrc : src.width = 0 ∨ src.height = 0) (hg : g.width = 0 ∨ g.height = 0) :
    (imageToGrayscale src).2
        = { width := src.width, height := src.height, pix := fun _ _ => 0 } ∧
    errorDiffusionDither g invert = g := by
  constructor
  · obtain ⟨-, hw, hh, hpix⟩ := imageToGrayscale_pix src
    refine Gray.ext (by rw [hw]) (by rw [hh]) ?_
    funext i j
    rw [hpix i j]
    dsimp only
    split_ifs <;> omega
  · have hwf : g.Wf := by
      intro x hx y hy
      rcases hg with h | h <;> omega
    obtain ⟨hw, hh, hpix⟩ := errorDiffusionDither_pix g invert hwf
    refine Gray.ext (by rw [hw]) (by rw [hh]) ?_
    funext i j
    rw [hpix i j]
    split_ifs <;> omega

theorem C9_degenerate_extents_witness :
    (emptySrc0x5.width = 0 ∨ emptySrc0x5.height = 0) ∧
    (empty3x0.width = 0 ∨ empty3x0.height = 0) ∧
    ((imageToGrayscale emptySrc0x5).2
        = { width := emptySrc0x5.width, height := emptySrc0x5.height, pix := fun _ _ => 0 } ∧
     errorDiffusionDither empty3x0 false = empty3x0) :=
  ⟨Or.inl rfl, Or.inr rfl,
   C9_degenerate_extents emptySrc0x5 empty3x0 false (Or.inl rfl) (Or.inr rfl)⟩

/-- C10: the whole pass is extensionally the pointwise threshold map: each
pixel's final value depends only on its own initial sample (high exactly when
it exceeds 127), because every diffused contribution is zero. -/
theorem C10_pointwise_threshold (g : Gray) (invert : Bool) (hwf : g.Wf) :
    errorDiffusionDither g invert = thresholdMapSpec g invert := by
  obtain ⟨hw, hh, hpix⟩ := errorDiffusionDither_pix g invert hwf
  refine Gray.ext (by rw [hw]; rfl) (by rw [hh]; rfl) ?_
  funext i j
  rw [hpix i j]
  rfl

theorem C10_pointwise_threshold_witness :
    c2buf.Wf ∧ errorDiffusionDither c2buf false = thresholdMapSpec c2buf false :=
  ⟨by decide, C10_pointwise_threshold c2buf false (by decide)⟩

end Ditherphile
